import Mathlib

/-!
# quack.js : wallet creation and the three-call registration handshake

A shallow embedding of `src/quack.js`.

* JavaScript strings are lists of characters (`JsString`).
* JavaScript values that can occur in a parsed response body, in a wallet
  field or as a function argument are values of `JsVal`.
* The outside world is explicit: the files read at start-up (`Host`), the
  key material and random draw of each `createWallet` call (`WalletSeed`),
  and the HTTP transport, the message signer and the proxy-agent
  constructor (`Runtime`).  The transport sees the calls made so far.
* A `try`/`catch` is a value of `Except JsError _` that is matched on.
* Console output and the pauses made by `delay` do not influence control
  flow; console output is left out and pauses are only recorded.
-/

namespace Quack

/-! ## Strings -/

/-- A JavaScript string. -/
abbrev JsString := List Char

/-- The characters removed by `String.prototype.trim` and skipped by
`parseInt`: ECMAScript WhiteSpace and LineTerminator. -/
def isWhiteSpace (c : Char) : Bool :=
  let n := c.toNat
  n == 0x09 || n == 0x0A || n == 0x0B || n == 0x0C || n == 0x0D || n == 0x20 ||
  n == 0xA0 || n == 0x1680 || (0x2000 ≤ n && n ≤ 0x200A) || n == 0x2028 ||
  n == 0x2029 || n == 0x202F || n == 0x205F || n == 0x3000 || n == 0xFEFF

/-- The method `s.trim()`. -/
def trim (s : JsString) : JsString :=
  (s.dropWhile isWhiteSpace).rdropWhile isWhiteSpace

/-- The method `s.split(sep)` for a one-character separator. -/
def split (sep : Char) : JsString → List JsString
  | [] => [[]]
  | c :: cs =>
    if c = sep then [] :: split sep cs
    else
      match split sep cs with
      | [] => [[c]]
      | l :: ls => (c :: l) :: ls

/-- The method `xs.join(sep)` for a one-character separator. -/
def join (sep : Char) : List JsString → JsString
  | [] => []
  | [x] => x
  | x :: y :: rest => x ++ sep :: join sep (y :: rest)

/-- The method `s.startsWith(p)`. -/
def startsWith : JsString → JsString → Bool
  | _, [] => true
  | [], _ :: _ => false
  | c :: cs, p :: ps => c == p && startsWith cs ps

/-! ## Values -/

/-- JavaScript values of JSON shape, plus `undefined`.  A number is the exact
value of the double; an object is its list of own properties in insertion
order (a later entry for the same key overrides an earlier one). -/
inductive JsVal where
  | undefined
  | null
  | bool (b : Bool)
  | num (x : ℚ)
  | str (s : JsString)
  | arr (items : List JsVal)
  | obj (members : List (JsString × JsVal))

/-- Truthiness: what `!v`, `v || d` and `v ? a : b` test. -/
def JsVal.truthy : JsVal → Bool
  | .undefined => false
  | .null => false
  | .bool b => b
  | .num x => decide (x ≠ 0)
  | .str s => !s.isEmpty
  | .arr _ => true
  | .obj _ => true

/-- The property read `v.key` for a key that no built-in prototype defines
(`data` and `token` are the two keys read in this program): the own property
of an object, `undefined` on every other value. -/
def JsVal.get (key : JsString) : JsVal → JsVal
  | .obj members =>
    match members.reverse.find? (fun m => m.1 == key) with
    | some m => m.2
    | none => .undefined
  | _ => .undefined

/-- The optional chain `v?.key`: `undefined` when `v` is `undefined` or
`null`, the property read otherwise. -/
def JsVal.optGet (key : JsString) : JsVal → JsVal
  | .undefined => .undefined
  | .null => .undefined
  | v => v.get key

mutual
/-- The string conversion made by a template literal.  The text of a number
is the engine's; it is the parameter `numStr`. -/
def JsVal.toStr (numStr : ℚ → JsString) : JsVal → JsString
  | .undefined => "undefined".toList
  | .null => "null".toList
  | .bool true => "true".toList
  | .bool false => "false".toList
  | .num x => numStr x
  | .str s => s
  | .arr items => JsVal.joinItems numStr items
  | .obj _ => "[object Object]".toList
termination_by structural v => v
/-- The conversion of an array: its items joined by commas, `undefined`
and `null` items giving the empty text. -/
def JsVal.joinItems (numStr : ℚ → JsString) : List JsVal → JsString
  | [] => []
  | x :: rest =>
    (match x with
      | .undefined => []
      | .null => []
      | v => JsVal.toStr numStr v) ++
    (match rest with
      | [] => []
      | _ :: _ => ',' :: JsVal.joinItems numStr rest)
termination_by structural l => l
end

/-! ## `parseInt` -/

/-- The value of a character as a digit in some radix up to 36. -/
def digitValue (c : Char) : Option Nat :=
  let n := c.toNat
  if 48 ≤ n ∧ n ≤ 57 then some (n - 48)
  else if 97 ≤ n ∧ n ≤ 122 then some (n - 97 + 10)
  else if 65 ≤ n ∧ n ≤ 90 then some (n - 65 + 10)
  else none

/-- Whether a character is a digit of radix `R`. -/
def isRadixDigit (R : Nat) (c : Char) : Bool :=
  match digitValue c with
  | some d => decide (d < R)
  | none => false

/-- The number written by a run of radix-`R` digits. -/
def digitsValue (R : Nat) (Z : JsString) : Nat :=
  Z.foldl (fun acc c => acc * R + (digitValue c).getD 0) 0

/-- Whether the text left after the white space starts with a minus sign. -/
def parseInt.isNegative : JsString → Bool
  | '-' :: _ => true
  | _ => false

/-- The text after a leading sign, if there is one. -/
def parseInt.stripSign : JsString → JsString
  | '-' :: t => t
  | '+' :: t => t
  | s => s

/-- The radix: 16 after `0x` or `0X`, else 10. -/
def parseInt.radix : JsString → Nat
  | '0' :: 'x' :: _ => 16
  | '0' :: 'X' :: _ => 16
  | _ => 10

/-- The text after a leading `0x` or `0X`, if there is one. -/
def parseInt.stripRadix : JsString → JsString
  | '0' :: 'x' :: t => t
  | '0' :: 'X' :: t => t
  | s => s

/-- The call `parseInt(s)` with no radix argument, `none` standing for
`NaN`: leading white space is skipped, a sign is read, a `0x`/`0X` prefix
selects radix 16, and the longest run of digits is converted.  The result is
the exact integer (`-0` is `0`); the rounding of integers above `2^53` to a
double is not modelled. -/
def parseInt (s : JsString) : Option Int :=
  let s1 := s.dropWhile isWhiteSpace
  let negative := parseInt.isNegative s1
  let s2 := parseInt.stripSign s1
  let R := parseInt.radix s2
  let s3 := parseInt.stripRadix s2
  let Z := s3.takeWhile (isRadixDigit R)
  if Z.isEmpty then none
  else if negative then some (-(digitsValue R Z : Int))
  else some (digitsValue R Z : Int)

/-- The decimal text of a natural number, as an operator types it. -/
def decimalText (N : Nat) : JsString := Nat.toDigits 10 N

/-! ## Configuration (source lines 15 to 32) -/

/-- The two fixed pauses, in milliseconds. -/
structure Delays where
  betweenRequests : Nat
  betweenWallets : Nat

/-- The object `config`. -/
structure Config where
  INVITE_CODE : JsString
  CHAT_TOPICS : List JsString
  PROXIES : List JsString
  API_BASE_URL : JsString
  APP_REFERER : JsString
  WALLETS_FILE : JsString
  DELAYS : Delays

/-- What the program reads from its directory at start-up: `readFile name` is
the text of the file, `none` when `fs.existsSync(name)` is false;
`walletsFile` is the value of `path.join(__dirname, "wallets.json")`. -/
structure Host where
  readFile : JsString → Option JsString
  walletsFile : JsString

/-- The expression `content.split("\n").map(l => l.trim()).filter(l => l)`
applied to a file's text. -/
def loadLines (content : JsString) : List JsString :=
  ((split '\n' content).map trim).filter (fun l => !l.isEmpty)

/-- The built-in topic list used when `topics.txt` is absent. -/
def defaultTopics : List JsString :=
  ["How does Quack AI automate DAO governance?".toList,
   "What are the benefits of AI in blockchain applications?".toList]

/-- The initialiser of `config`. -/
def config (host : Host) : Config :=
  { INVITE_CODE :=
      match host.readFile "code.txt".toList with
      | some content => trim content
      | none => "y8x64a".toList
    CHAT_TOPICS :=
      match host.readFile "topics.txt".toList with
      | some content => loadLines content
      | none => defaultTopics
    PROXIES :=
      match host.readFile "proxies.txt".toList with
      | some content => loadLines content
      | none => []
    API_BASE_URL := "https://quack-ai-api.duckchain.io".toList
    APP_REFERER := "https://app.quackai.ai/".toList
    WALLETS_FILE := host.walletsFile
    DELAYS := { betweenRequests := 2000, betweenWallets := 5000 } }

/-! ## Wallet records (source lines 48 to 61) -/

/-- A wallet record, with the fields of the object literal in `createWallet`. -/
structure Wallet where
  address : JsString
  privateKey : JsString
  mnemonic : JsVal
  registered : Bool
  chats : Nat
  jwt : JsVal
  usedTopics : List JsString
  proxy : JsVal

/-- A draw of `Math.random()`: the double `mantissa / 2 ^ scale`. -/
structure Draw where
  mantissa : Nat
  scale : Nat

/-- The draws `Math.random()` can return, the doubles from 0 inclusive to 1
exclusive: at most 53 significant bits, a value below 1, and a scale within
the exponent range of a double. -/
def Draw.inRange (r : Draw) : Prop :=
  r.mantissa < 2 ^ 53 ∧ r.mantissa < 2 ^ r.scale ∧ r.scale ≤ 1074

instance (r : Draw) : Decidable r.inRange := by
  unfold Draw.inRange
  exact inferInstance

/-- The number of low bits a positive integer `M` has beyond 53 significant
bits (`fuel` bounds the search; `M` itself is enough). -/
def excessBits : Nat → Nat → Nat
  | 0, _ => 0
  | fuel + 1, M => if M < 2 ^ 53 then 0 else excessBits fuel (M / 2) + 1

/-- The integer `M` rounded to 53 significant bits, to nearest, ties to
even: the rounding of double arithmetic. -/
def roundToSignificand (M : Nat) : Nat :=
  let k := excessBits M M
  let q := M / 2 ^ k
  let rem := M % 2 ^ k
  if 2 * rem > 2 ^ k ∨ (2 * rem = 2 ^ k ∧ q % 2 = 1) then (q + 1) * 2 ^ k else q * 2 ^ k

/-- What one call of `createWallet` takes from outside: the key material made
by `ethers.Wallet.createRandom()` (`mnemonicPhrase` is the value of
`wallet.mnemonic?.phrase`) and the draw of `Math.random()`. -/
structure WalletSeed where
  address : JsString
  privateKey : JsString
  mnemonicPhrase : JsVal
  random : Draw

/-- The index `Math.floor(Math.random() * length)`: the exact product
`mantissa * length / 2 ^ scale` is rounded to a double, then floored. -/
def randomIndex (r : Draw) (length : Nat) : Nat :=
  roundToSignificand (r.mantissa * length) / 2 ^ r.scale

/-- The indexed read `pool[i]`: `undefined` outside the array. -/
def indexPool (pool : List JsString) (i : Nat) : JsVal :=
  match pool[i]? with
  | some p => .str p
  | none => .undefined

/-- The function `createWallet`. -/
def createWallet (cfg : Config) (seed : WalletSeed) : Wallet :=
  { address := seed.address
    privateKey := seed.privateKey
    mnemonic := if seed.mnemonicPhrase.truthy then seed.mnemonicPhrase else .null
    registered := false
    chats := 0
    jwt := .null
    usedTopics := []
    proxy :=
      if cfg.PROXIES.length > 0 then
        indexPool cfg.PROXIES (randomIndex seed.random cfg.PROXIES.length)
      else .null }

/-! ## The HTTP client and its requests -/

/-- A thrown value.  What axios, ethers and the engine throw are `Error`
objects; such an object is kept as its `message` and the value of
`error.response?.data`, the two things the `catch` clause of `registerWallet`
reads (on an object, reading them cannot throw). -/
structure JsError where
  message : JsString
  responseData : JsVal

/-- A client: the default `axios`, or the instance built by `axios.create`
around an `HttpsProxyAgent` for `agentUrl`. -/
inductive AxiosInstance where
  | axios
  | create (agentUrl : JsString) (proxy : Bool) (timeout : Nat)

/-- The HTTP method of a call. -/
inductive Method where
  | GET
  | POST
deriving DecidableEq

/-- The three paths of the remote API. -/
inductive Endpoint where
  | user_info
  | evm_connect
  | bind_invite
deriving DecidableEq

/-- The path text of an endpoint. -/
def Endpoint.path : Endpoint → JsString
  | .user_info => "/user/user_info".toList
  | .evm_connect => "/user/evm_connect".toList
  | .bind_invite => "/user/bind_invite".toList

/-- A request URL, kept in the parts its template literal is built from. -/
structure Url where
  base : JsString
  endpoint : Endpoint
  query : Option (JsString × JsString)

/-- The text of a URL. -/
def Url.render (u : Url) : JsString :=
  u.base ++ u.endpoint.path ++
    (match u.query with
     | some (k, v) => '?' :: k ++ '=' :: v
     | none => [])

/-- A call on a client: method, URL, JSON body (empty for `get`) and
headers, both as lists of properties. -/
structure Request where
  client : AxiosInstance
  method : Method
  url : Url
  data : List (JsString × JsString)
  headers : List (JsString × JsString)

/-- A response; only its `data` is read. -/
structure Response where
  data : JsVal

/-- How a call ends: it returns a response or throws. -/
inductive Outcome where
  | returned (res : Response)
  | threw (e : JsError)

/-- A call that was made, with how it ended. -/
structure CallRecord where
  request : Request
  outcome : Outcome

/-- The collaborators of the handshake: the `HttpsProxyAgent` constructor
(`some e` when it throws for that URL), `signMessage` of a wallet built from
a private key, the transport (given the calls made so far and the request),
and the engine's text of a number. -/
structure Runtime where
  newHttpsProxyAgent : JsString → Option JsError
  signMessage : JsString → JsString → Except JsError JsString
  request : List CallRecord → Request → Outcome
  numStr : ℚ → JsString

/-- The value of `proxyUrl` on source line 66. -/
def proxyUrl (proxy : JsString) : JsString :=
  if startsWith proxy "http".toList then proxy else "http://".toList ++ proxy

/-- The function `createAxiosInstance`.  A truthy `proxy` that is not a
string has no `startsWith` method, and the call throws. -/
def createAxiosInstance (rt : Runtime) (proxy : JsVal) : Except JsError AxiosInstance :=
  let proxy := match proxy with
    | .undefined => JsVal.null
    | p => p
  if !proxy.truthy then .ok .axios
  else
    match proxy with
    | .str p =>
      match rt.newHttpsProxyAgent (proxyUrl p) with
      | some e => .error e
      | none => .ok (.create (proxyUrl p) false 10000)
    | _ => .error ⟨"proxy.startsWith is not a function".toList, .undefined⟩

/-- The function `getDefaultHeaders`; its parameter defaults to `''`. -/
def getDefaultHeaders (cfg : Config) (numStr : ℚ → JsString) (jwt : JsVal) :
    List (JsString × JsString) :=
  let jwt := match jwt with
    | .undefined => JsVal.str []
    | v => v
  [("accept".toList, "*/*".toList), ("Referer".toList, cfg.APP_REFERER)] ++
    (if jwt.truthy then [("authorization".toList, "jwt ".toList ++ jwt.toStr numStr)] else [])

/-- The value of the header `name` in a headers object. -/
def header (name : JsString) (headers : List (JsString × JsString)) : Option JsString :=
  (headers.reverse.find? (fun h => h.1 == name)).map (fun h => h.2)

/-! ## The registration handshake (source lines 77 to 116) -/

/-- The message every wallet signs. -/
def welcomeMessage : JsString := "Welcome to Quack AI".toList

/-- The call on source line 82. -/
def userInfoRequest (cfg : Config) (rt : Runtime) (client : AxiosInstance) (wallet : Wallet) :
    Request :=
  { client := client
    method := .GET
    url := ⟨cfg.API_BASE_URL, .user_info, some ("address".toList, wallet.address)⟩
    data := []
    headers := getDefaultHeaders cfg rt.numStr .undefined }

/-- The call on source line 88. -/
def evmConnectRequest (cfg : Config) (rt : Runtime) (client : AxiosInstance) (wallet : Wallet)
    (signature : JsString) : Request :=
  { client := client
    method := .POST
    url := ⟨cfg.API_BASE_URL, .evm_connect, none⟩
    data := [("address".toList, wallet.address), ("sign".toList, signature)]
    headers := getDefaultHeaders cfg rt.numStr .undefined ++
      [("content-type".toList, "application/json".toList)] }

/-- The call on source line 105. -/
def bindInviteRequest (cfg : Config) (rt : Runtime) (client : AxiosInstance) (jwt : JsVal) :
    Request :=
  { client := client
    method := .GET
    url := ⟨cfg.API_BASE_URL, .bind_invite, some ("inviteCode".toList, cfg.INVITE_CODE)⟩
    data := []
    headers := getDefaultHeaders cfg rt.numStr jwt }

/-- The value of `connectResponse.data?.data?.token`. -/
def connectToken (connectResponse : Response) : JsVal :=
  (connectResponse.data.optGet "data".toList).optGet "token".toList

/-- A connect response that lacks `data.token`: `data` or `token` is missing
(the chain gives `undefined`), or the token is `null` or the empty string. -/
def lacksToken (connectResponse : Response) : Bool :=
  match connectToken connectResponse with
  | .undefined => true
  | .null => true
  | .str [] => true
  | _ => false

/-- Where a run of `registerWallet` stands: how the function completed
(its returned value, or the error it threw), the wallet record as mutated so
far, and all calls made on the transport so far. -/
structure Run where
  completion : Except JsError Bool
  wallet : Wallet
  calls : List CallRecord

/-- The `try` block of `registerWallet`, started after the calls `history`. -/
def registerWallet.tryBlock (cfg : Config) (rt : Runtime) (history : List CallRecord)
    (wallet : Wallet) : Run :=
  match createAxiosInstance rt wallet.proxy with
  | .error e => ⟨.error e, wallet, history⟩
  | .ok axiosInstance =>
    let req1 := userInfoRequest cfg rt axiosInstance wallet
    let out1 := rt.request history req1
    let calls1 := history ++ [⟨req1, out1⟩]
    match out1 with
    | .threw e => ⟨.error e, wallet, calls1⟩
    | .returned _ =>
      match rt.signMessage wallet.privateKey welcomeMessage with
      | .error e => ⟨.error e, wallet, calls1⟩
      | .ok signature =>
        let req2 := evmConnectRequest cfg rt axiosInstance wallet signature
        let out2 := rt.request calls1 req2
        let calls2 := calls1 ++ [⟨req2, out2⟩]
        match out2 with
        | .threw e => ⟨.error e, wallet, calls2⟩
        | .returned connectResponse =>
          if !(connectToken connectResponse).truthy then
            ⟨.error ⟨"Failed to get authentication token".toList, .undefined⟩, wallet, calls2⟩
          else
            let wallet2 := { wallet with jwt := connectToken connectResponse }
            let req3 := bindInviteRequest cfg rt axiosInstance wallet2.jwt
            let out3 := rt.request calls2 req3
            let calls3 := calls2 ++ [⟨req3, out3⟩]
            match out3 with
            | .threw e => ⟨.error e, wallet2, calls3⟩
            | .returned _ => ⟨.ok true, { wallet2 with registered := true }, calls3⟩

/-- The function `registerWallet`: the `try` block, and the `catch` clause
that turns every thrown error into the returned value `false`. -/
def registerWallet (cfg : Config) (rt : Runtime) (history : List CallRecord) (wallet : Wallet) :
    Run :=
  let run := registerWallet.tryBlock cfg rt history wallet
  match run.completion with
  | .ok b => ⟨.ok b, run.wallet, run.calls⟩
  | .error _ => ⟨.ok false, run.wallet, run.calls⟩

/-! ## The driver (source lines 127 to 164) -/

/-- One invocation of `registerWallet` by `main`: the record `createWallet`
made, the record after the call, and the value the call returned. -/
structure Attempt where
  created : Wallet
  after : Wallet
  returned : Bool

/-- The state of the loop of `main`: the array `wallets`, the calls made on
the transport, the invocations of `registerWallet` so far, the pauses made,
and the error that left the loop, if any. -/
structure LoopState where
  wallets : List Wallet
  calls : List CallRecord
  attempts : List Attempt
  delays : List Nat
  thrown : Option JsError

/-- The body of the `for` loop for index `i`. -/
def main.iteration (cfg : Config) (rt : Runtime) (seeds : Nat → WalletSeed) (count : Int)
    (st : LoopState) (i : Nat) : LoopState :=
  match st.thrown with
  | some _ => st
  | none =>
    let wallet := createWallet cfg (seeds i)
    let run := registerWallet cfg rt st.calls wallet
    match run.completion with
    | .error e => { st with calls := run.calls, thrown := some e }
    | .ok registered =>
      { wallets := if registered then st.wallets ++ [run.wallet] else st.wallets
        calls := run.calls
        attempts := st.attempts ++ [⟨wallet, run.wallet, registered⟩]
        delays :=
          if (i : Int) < count - 1 then st.delays ++ [cfg.DELAYS.betweenWallets] else st.delays
        thrown := none }

/-- The value of `parseInt(answer) || 1`. -/
def walletCount (answer : JsString) : Int :=
  match parseInt answer with
  | none => 1
  | some n => if n = 0 then 1 else n

/-- What a run of `main` leaves behind: the invocations of `registerWallet`
in order, the calls made on the transport, the pauses made, and the array
given to `JSON.stringify` and written to the wallets file (`none` when the
write is not reached). -/
structure MainResult where
  attempts : List Attempt
  calls : List CallRecord
  delays : List Nat
  saved : Option (List Wallet)

/-- The loop `for (let i = 0; i < count; i++)` of `main`: its body runs for
`i = 0, 1, ...` below `count`, the `i`-th `createWallet` taking `seeds i`. -/
def main.loop (cfg : Config) (rt : Runtime) (seeds : Nat → WalletSeed) (count : Int) :
    LoopState :=
  (List.range count.toNat).foldl (main.iteration cfg rt seeds count) ⟨[], [], [], [], none⟩

/-- The function `main`, for the line `typed` at the prompt (`askQuestion`
trims it). -/
def main (cfg : Config) (rt : Runtime) (seeds : Nat → WalletSeed) (typed : JsString) :
    MainResult :=
  let answer := trim typed
  let count := walletCount answer
  let final := main.loop cfg rt seeds count
  { attempts := final.attempts
    calls := final.calls
    delays := final.delays
    saved :=
      match final.thrown with
      | none => some final.wallets
      | some _ => none }

/-! ## Sample collaborators, used to instantiate the theorems -/

/-- A response body `{ data: { token: "tok1" } }`. -/
def sampleTokenBody : JsVal :=
  .obj [("data".toList, .obj [("token".toList, .str "tok1".toList)])]

/-- A runtime whose every call returns, the connect call with a token. -/
def sampleRuntime : Runtime :=
  { newHttpsProxyAgent := fun _ => none
    signMessage := fun _ _ => .ok "0xsig".toList
    request := fun _ req =>
      match req.url.endpoint with
      | .evm_connect => .returned ⟨sampleTokenBody⟩
      | _ => .returned ⟨.obj []⟩
    numStr := fun _ => [] }

/-- A runtime whose connect call returns the body `{ data: {} }`. -/
def noTokenRuntime : Runtime :=
  { sampleRuntime with
    request := fun _ req =>
      match req.url.endpoint with
      | .evm_connect => .returned ⟨.obj [("data".toList, .obj [])]⟩
      | _ => .returned ⟨.obj []⟩ }

/-- A host with no file present. -/
def sampleHost : Host :=
  { readFile := fun _ => none
    walletsFile := "/app/wallets.json".toList }

/-- A configuration with a pool of two proxies. -/
def sampleConfig : Config :=
  { config sampleHost with PROXIES := ["10.0.0.1:8080".toList, "http://10.0.0.2:3128".toList] }

/-- Key material and the draw 0.75. -/
def sampleSeed : WalletSeed :=
  { address := "0xA1".toList
    privateKey := "0xK1".toList
    mnemonicPhrase := .str "abandon ability".toList
    random := ⟨3, 2⟩ }

/-- Key material of a second wallet, and the draw 0.25. -/
def secondSeed : WalletSeed :=
  { address := "0xB2".toList
    privateKey := "0xK2".toList
    mnemonicPhrase := .str "zoo zone".toList
    random := ⟨1, 2⟩ }

/-- The created wallets of the two-wallet scenario: first `sampleSeed`, then
`secondSeed`. -/
def twoSeeds (i : Nat) : WalletSeed :=
  if i = 0 then sampleSeed else secondSeed

/-- A runtime whose server answers the connect call of the wallet `0xA1`
with HTTP 500 (axios throws) and every other call as `sampleRuntime` does. -/
def serverErrorRuntime : Runtime :=
  { sampleRuntime with
    request := fun history req =>
      match req.url.endpoint with
      | .evm_connect =>
        if req.data = [("address".toList, "0xA1".toList), ("sign".toList, "0xsig".toList)] then
          .threw ⟨"Request failed with status code 500".toList, .str "Internal Server Error".toList⟩
        else sampleRuntime.request history req
      | _ => sampleRuntime.request history req }

/-! ## The handshake, case by case -/

/-- The seven ways a run of `registerWallet` can go, each with what the
collaborators answered, the completion, the final record and the calls it
leaves: the client could not be built; `user_info` threw; signing threw;
`evm_connect` threw; the connect response had no truthy token; `bind_invite`
threw; everything returned. -/
inductive Handshake (cfg : Config) (rt : Runtime) (history : List CallRecord) (wallet : Wallet) :
    Run → Prop where
  | noClient (e : JsError) (hax : createAxiosInstance rt wallet.proxy = .error e) :
      Handshake cfg rt history wallet ⟨.ok false, wallet, history ++ []⟩
  | userInfoThrew (ax : AxiosInstance) (e : JsError)
      (hax : createAxiosInstance rt wallet.proxy = .ok ax)
      (h1 : rt.request history (userInfoRequest cfg rt ax wallet) = .threw e) :
      Handshake cfg rt history wallet
        ⟨.ok false, wallet, history ++ [⟨userInfoRequest cfg rt ax wallet, .threw e⟩]⟩
  | signThrew (ax : AxiosInstance) (res1 : Response) (e : JsError)
      (hax : createAxiosInstance rt wallet.proxy = .ok ax)
      (h1 : rt.request history (userInfoRequest cfg rt ax wallet) = .returned res1)
      (hsig : rt.signMessage wallet.privateKey welcomeMessage = .error e) :
      Handshake cfg rt history wallet
        ⟨.ok false, wallet, history ++ [⟨userInfoRequest cfg rt ax wallet, .returned res1⟩]⟩
  | connectThrew (ax : AxiosInstance) (res1 : Response) (sig : JsString) (e : JsError)
      (hax : createAxiosInstance rt wallet.proxy = .ok ax)
      (h1 : rt.request history (userInfoRequest cfg rt ax wallet) = .returned res1)
      (hsig : rt.signMessage wallet.privateKey welcomeMessage = .ok sig)
      (h2 : rt.request (history ++ [⟨userInfoRequest cfg rt ax wallet, .returned res1⟩])
        (evmConnectRequest cfg rt ax wallet sig) = .threw e) :
      Handshake cfg rt history wallet
        ⟨.ok false, wallet,
          history ++ [⟨userInfoRequest cfg rt ax wallet, .returned res1⟩,
            ⟨evmConnectRequest cfg rt ax wallet sig, .threw e⟩]⟩
  | noToken (ax : AxiosInstance) (res1 : Response) (sig : JsString) (res2 : Response)
      (hax : createAxiosInstance rt wallet.proxy = .ok ax)
      (h1 : rt.request history (userInfoRequest cfg rt ax wallet) = .returned res1)
      (hsig : rt.signMessage wallet.privateKey welcomeMessage = .ok sig)
      (h2 : rt.request (history ++ [⟨userInfoRequest cfg rt ax wallet, .returned res1⟩])
        (evmConnectRequest cfg rt ax wallet sig) = .returned res2)
      (htok : (connectToken res2).truthy = false) :
      Handshake cfg rt history wallet
        ⟨.ok false, wallet,
          history ++ [⟨userInfoRequest cfg rt ax wallet, .returned res1⟩,
            ⟨evmConnectRequest cfg rt ax wallet sig, .returned res2⟩]⟩
  | bindThrew (ax : AxiosInstance) (res1 : Response) (sig : JsString) (res2 : Response)
      (e : JsError)
      (hax : createAxiosInstance rt wallet.proxy = .ok ax)
      (h1 : rt.request history (userInfoRequest cfg rt ax wallet) = .returned res1)
      (hsig : rt.signMessage wallet.privateKey welcomeMessage = .ok sig)
      (h2 : rt.request (history ++ [⟨userInfoRequest cfg rt ax wallet, .returned res1⟩])
        (evmConnectRequest cfg rt ax wallet sig) = .returned res2)
      (htok : (connectToken res2).truthy = true)
      (h3 : rt.request
        (history ++ [⟨userInfoRequest cfg rt ax wallet, .returned res1⟩,
          ⟨evmConnectRequest cfg rt ax wallet sig, .returned res2⟩])
        (bindInviteRequest cfg rt ax (connectToken res2)) = .threw e) :
      Handshake cfg rt history wallet
        ⟨.ok false, { wallet with jwt := connectToken res2 },
          history ++ [⟨userInfoRequest cfg rt ax wallet, .returned res1⟩,
            ⟨evmConnectRequest cfg rt ax wallet sig, .returned res2⟩,
            ⟨bindInviteRequest cfg rt ax (connectToken res2), .threw e⟩]⟩
  | bound (ax : AxiosInstance) (res1 : Response) (sig : JsString) (res2 res3 : Response)
      (hax : createAxiosInstance rt wallet.proxy = .ok ax)
      (h1 : rt.request history (userInfoRequest cfg rt ax wallet) = .returned res1)
      (hsig : rt.signMessage wallet.privateKey welcomeMessage = .ok sig)
      (h2 : rt.request (history ++ [⟨userInfoRequest cfg rt ax wallet, .returned res1⟩])
        (evmConnectRequest cfg rt ax wallet sig) = .returned res2)
      (htok : (connectToken res2).truthy = true)
      (h3 : rt.request
        (history ++ [⟨userInfoRequest cfg rt ax wallet, .returned res1⟩,
          ⟨evmConnectRequest cfg rt ax wallet sig, .returned res2⟩])
        (bindInviteRequest cfg rt ax (connectToken res2)) = .returned res3) :
      Handshake cfg rt history wallet
        ⟨.ok true, { wallet with jwt := connectToken res2, registered := true },
          history ++ [⟨userInfoRequest cfg rt ax wallet, .returned res1⟩,
            ⟨evmConnectRequest cfg rt ax wallet sig, .returned res2⟩,
            ⟨bindInviteRequest cfg rt ax (connectToken res2), .returned res3⟩]⟩

/-- Every run of `registerWallet` is one of the seven cases. -/
theorem registerWallet_cases (cfg : Config) (rt : Runtime) (history : List CallRecord)
    (wallet : Wallet) :
    Handshake cfg rt history wallet (registerWallet cfg rt history wallet) := by
  unfold registerWallet registerWallet.tryBlock
  cases hax : createAxiosInstance rt wallet.proxy with
  | error e =>
    have := @Handshake.noClient cfg rt history wallet e hax
    simpa using this
  | ok ax =>
    dsimp only
    cases h1 : rt.request history (userInfoRequest cfg rt ax wallet) with
    | threw e => exact @Handshake.userInfoThrew cfg rt history wallet ax e hax h1
    | returned res1 =>
      dsimp only
      cases hs : rt.signMessage wallet.privateKey welcomeMessage with
      | error e => exact @Handshake.signThrew cfg rt history wallet ax res1 e hax h1 hs
      | ok sig =>
        dsimp only
        cases h2 : rt.request (history ++ [⟨userInfoRequest cfg rt ax wallet, .returned res1⟩])
            (evmConnectRequest cfg rt ax wallet sig) with
        | threw e =>
          have := @Handshake.connectThrew cfg rt history wallet ax res1 sig e hax h1 hs h2
          simpa using this
        | returned res2 =>
          dsimp only
          cases ht : (connectToken res2).truthy with
          | false =>
            have := @Handshake.noToken cfg rt history wallet ax res1 sig res2 hax h1 hs h2 ht
            simpa using this
          | true =>
            simp only [Bool.not_true, Bool.false_eq_true, if_false]
            cases h3 : rt.request
                (history ++ [⟨userInfoRequest cfg rt ax wallet, .returned res1⟩] ++
                  [⟨evmConnectRequest cfg rt ax wallet sig, .returned res2⟩])
                (bindInviteRequest cfg rt ax (connectToken res2)) with
            | threw e =>
              have := @Handshake.bindThrew cfg rt history wallet ax res1 sig res2 e
                hax h1 hs h2 ht (by simpa using h3)
              simpa using this
            | returned res3 =>
              have := @Handshake.bound cfg rt history wallet ax res1 sig res2 res3
                hax h1 hs h2 ht (by simpa using h3)
              simpa using this

/-- The record of calls is faithful: each call a run adds is recorded with
the outcome the transport gave for it after the calls before it. -/
theorem registerWallet_calls_faithful (cfg : Config) (rt : Runtime)
    (history : List CallRecord) (wallet : Wallet) :
    ∃ issued : List CallRecord,
      (registerWallet cfg rt history wallet).calls = history ++ issued ∧
      ∀ (n : Nat) (hn : n < issued.length),
        issued[n].outcome = rt.request (history ++ issued.take n) issued[n].request := by
  have h := registerWallet_cases cfg rt history wallet
  generalize registerWallet cfg rt history wallet = run at h ⊢
  cases h with
  | noClient e hax => exact ⟨_, rfl, fun n hn => absurd hn (by simp)⟩
  | userInfoThrew ax e hax h1 =>
    refine ⟨_, rfl, fun n hn => ?_⟩
    rcases n with _ | n
    · simpa using h1.symm
    · exfalso
      simp only [List.length_cons, List.length_nil] at hn
      omega
  | signThrew ax res1 e hax h1 hsig =>
    refine ⟨_, rfl, fun n hn => ?_⟩
    rcases n with _ | n
    · simpa using h1.symm
    · exfalso
      simp only [List.length_cons, List.length_nil] at hn
      omega
  | connectThrew ax res1 sig e hax h1 hsig h2 =>
    refine ⟨_, rfl, fun n hn => ?_⟩
    rcases n with _ | _ | n
    · simpa using h1.symm
    · simpa using h2.symm
    · exfalso
      simp only [List.length_cons, List.length_nil] at hn
      omega
  | noToken ax res1 sig res2 hax h1 hsig h2 htok =>
    refine ⟨_, rfl, fun n hn => ?_⟩
    rcases n with _ | _ | n
    · simpa using h1.symm
    · simpa using h2.symm
    · exfalso
      simp only [List.length_cons, List.length_nil] at hn
      omega
  | bindThrew ax res1 sig res2 e hax h1 hsig h2 htok h3 =>
    refine ⟨_, rfl, fun n hn => ?_⟩
    rcases n with _ | _ | _ | n
    · simpa using h1.symm
    · simpa using h2.symm
    · simpa using h3.symm
    · exfalso
      simp only [List.length_cons, List.length_nil] at hn
      omega
  | bound ax res1 sig res2 res3 hax h1 hsig h2 htok h3 =>
    refine ⟨_, rfl, fun n hn => ?_⟩
    rcases n with _ | _ | _ | n
    · simpa using h1.symm
    · simpa using h2.symm
    · simpa using h3.symm
    · exfalso
      simp only [List.length_cons, List.length_nil] at hn
      omega

/-! ## The handshake: completion, order of calls, record invariant -/

/-- C5: for every wallet record, every earlier history and every behaviour of
the collaborators, `registerWallet` completes by returning a boolean `b` (it
does not throw); `b` is `true` exactly when the calls it made are the three
calls user_info, evm_connect, bind_invite, each of which returned, the
connect response carrying a truthy `data.token`; when `b` is `true` the
record has `registered = true`, and when `b` is `false` the field
`registered` is left as it was. -/
theorem registerWallet_returns_boolean (cfg : Config) (rt : Runtime)
    (history : List CallRecord) (wallet : Wallet) :
    ∃ (b : Bool) (issued : List CallRecord),
      (registerWallet cfg rt history wallet).completion = .ok b ∧
      (registerWallet cfg rt history wallet).calls = history ++ issued ∧
      (b = true ↔
        (issued.map (fun c => c.request.url.endpoint) =
            [Endpoint.user_info, Endpoint.evm_connect, Endpoint.bind_invite] ∧
          (∀ c ∈ issued, ∃ res, c.outcome = .returned res) ∧
          (∀ c ∈ issued, c.request.url.endpoint = Endpoint.evm_connect →
            ∃ res, c.outcome = .returned res ∧ (connectToken res).truthy = true))) ∧
      (b = true → (registerWallet cfg rt history wallet).wallet.registered = true) ∧
      (b = false →
        (registerWallet cfg rt history wallet).wallet.registered = wallet.registered) := by
  have h := registerWallet_cases cfg rt history wallet
  generalize registerWallet cfg rt history wallet = run at h ⊢
  cases h <;> refine ⟨_, _, rfl, rfl, ?_, ?_, ?_⟩ <;>
    simp [userInfoRequest, evmConnectRequest, bindInviteRequest]
  assumption

/-- C4: the calls one run of `registerWallet` adds to the transport's record
are, by endpoint, an initial part of user_info, evm_connect, bind_invite (so
they come in that order and each at most once); every call that is followed
by another one returned; if the user_info call threw it is the only call; if
the evm_connect call threw there are exactly two calls; if the bind_invite
call threw the run returns `false` and `registered` is left as it was. -/
theorem registerWallet_call_order (cfg : Config) (rt : Runtime)
    (history : List CallRecord) (wallet : Wallet) :
    ∃ issued : List CallRecord,
      (registerWallet cfg rt history wallet).calls = history ++ issued ∧
      issued.map (fun c => c.request.url.endpoint) <+:
        [Endpoint.user_info, Endpoint.evm_connect, Endpoint.bind_invite] ∧
      (∀ c ∈ issued.dropLast, ∃ res, c.outcome = .returned res) ∧
      (∀ c ∈ issued, c.request.url.endpoint = Endpoint.user_info →
        (∃ e, c.outcome = .threw e) → issued.length = 1) ∧
      (∀ c ∈ issued, c.request.url.endpoint = Endpoint.evm_connect →
        (∃ e, c.outcome = .threw e) → issued.length = 2) ∧
      (∀ c ∈ issued, c.request.url.endpoint = Endpoint.bind_invite →
        (∃ e, c.outcome = .threw e) →
          (registerWallet cfg rt history wallet).completion = .ok false ∧
          (registerWallet cfg rt history wallet).wallet.registered = wallet.registered) := by
  have h := registerWallet_cases cfg rt history wallet
  generalize registerWallet cfg rt history wallet = run at h ⊢
  cases h <;> refine ⟨_, rfl, ?_, ?_, ?_, ?_, ?_⟩ <;>
    simp [userInfoRequest, evmConnectRequest, bindInviteRequest]

/-- A response that lacks `data.token` has no truthy token. -/
theorem truthy_eq_false_of_lacksToken (res : Response) (h : lacksToken res = true) :
    (connectToken res).truthy = false := by
  unfold lacksToken at h
  split at h <;> simp_all [JsVal.truthy]

/-- C3: for a record fresh from `createWallet`, when the transport answers
every evm_connect request with a response that lacks `data.token`, whatever
it does on the other endpoints, `registerWallet` returns `false`, leaves
`registered = false` and `jwt = null`, and makes no bind_invite call. -/
theorem registerWallet_without_token (cfg : Config) (rt : Runtime)
    (history : List CallRecord) (seed : WalletSeed)
    (h : ∀ hist req, req.url.endpoint = Endpoint.evm_connect →
      ∃ res, rt.request hist req = .returned res ∧ lacksToken res = true) :
    (registerWallet cfg rt history (createWallet cfg seed)).completion = .ok false ∧
    (registerWallet cfg rt history (createWallet cfg seed)).wallet.registered = false ∧
    (registerWallet cfg rt history (createWallet cfg seed)).wallet.jwt = JsVal.null ∧
    ∃ issued : List CallRecord,
      (registerWallet cfg rt history (createWallet cfg seed)).calls = history ++ issued ∧
      ∀ c ∈ issued, c.request.url.endpoint ≠ Endpoint.bind_invite := by
  have hcases := registerWallet_cases cfg rt history (createWallet cfg seed)
  have hlack : ∀ hist ax sig res2,
      rt.request hist (evmConnectRequest cfg rt ax (createWallet cfg seed) sig) = .returned res2 →
      (connectToken res2).truthy = false := by
    intro hist ax sig res2 h2
    obtain ⟨res, hres, hl⟩ := h hist (evmConnectRequest cfg rt ax (createWallet cfg seed) sig) rfl
    rw [h2] at hres
    cases hres
    exact truthy_eq_false_of_lacksToken _ hl
  generalize registerWallet cfg rt history (createWallet cfg seed) = run at hcases ⊢
  cases hcases with
  | noClient e hax => exact ⟨rfl, rfl, rfl, _, rfl, by simp⟩
  | userInfoThrew ax e hax h1 => exact ⟨rfl, rfl, rfl, _, rfl, by simp [userInfoRequest]⟩
  | signThrew ax res1 e hax h1 hsig => exact ⟨rfl, rfl, rfl, _, rfl, by simp [userInfoRequest]⟩
  | connectThrew ax res1 sig e hax h1 hsig h2 =>
    exact ⟨rfl, rfl, rfl, _, rfl, by simp [userInfoRequest, evmConnectRequest]⟩
  | noToken ax res1 sig res2 hax h1 hsig h2 htok =>
    exact ⟨rfl, rfl, rfl, _, rfl, by simp [userInfoRequest, evmConnectRequest]⟩
  | bindThrew ax res1 sig res2 e hax h1 hsig h2 htok h3 =>
    rw [hlack _ _ _ _ h2] at htok
    cases htok
  | bound ax res1 sig res2 res3 hax h1 hsig h2 htok h3 =>
    rw [hlack _ _ _ _ h2] at htok
    cases htok

/-- C3 at a concrete input: the transport `noTokenRuntime` answers the
connect call with `{ data: {} }`. -/
theorem registerWallet_without_token_witness :
    (registerWallet sampleConfig noTokenRuntime [] (createWallet sampleConfig sampleSeed)).completion
        = .ok false ∧
    (registerWallet sampleConfig noTokenRuntime []
      (createWallet sampleConfig sampleSeed)).wallet.registered = false ∧
    (registerWallet sampleConfig noTokenRuntime []
      (createWallet sampleConfig sampleSeed)).wallet.jwt = JsVal.null ∧
    ∃ issued : List CallRecord,
      (registerWallet sampleConfig noTokenRuntime []
        (createWallet sampleConfig sampleSeed)).calls = [] ++ issued ∧
      ∀ c ∈ issued, c.request.url.endpoint ≠ Endpoint.bind_invite :=
  registerWallet_without_token sampleConfig noTokenRuntime [] sampleSeed
    (fun _ req hreq => ⟨⟨.obj [("data".toList, .obj [])]⟩, by simp [noTokenRuntime, hreq], by decide⟩)

/-- A truthy value is not `null`. -/
theorem ne_null_of_truthy (v : JsVal) (h : v.truthy = true) : v ≠ JsVal.null := by
  intro hv
  rw [hv] at h
  simp [JsVal.truthy] at h

/-- C6: a record made by `createWallet` has `registered = false` and
`jwt = null`; after one run of `registerWallet` on it, `jwt` is not `null`
exactly when the run made an evm_connect call that returned a response with a
truthy `data.token`, and `jwt` is then that token; `registered = true` only
if the run made the three calls user_info, evm_connect, bind_invite and all
three returned, and then `jwt` is not `null`. -/
theorem wallet_record_invariant (cfg : Config) (rt : Runtime) (history : List CallRecord)
    (seed : WalletSeed) :
    (createWallet cfg seed).registered = false ∧
    (createWallet cfg seed).jwt = JsVal.null ∧
    ∃ issued : List CallRecord,
      (registerWallet cfg rt history (createWallet cfg seed)).calls = history ++ issued ∧
      ((registerWallet cfg rt history (createWallet cfg seed)).wallet.jwt ≠ JsVal.null ↔
        ∃ c ∈ issued, c.request.url.endpoint = Endpoint.evm_connect ∧
          ∃ res, c.outcome = .returned res ∧ (connectToken res).truthy = true) ∧
      (∀ c ∈ issued, c.request.url.endpoint = Endpoint.evm_connect →
        ∀ res, c.outcome = .returned res → (connectToken res).truthy = true →
          (registerWallet cfg rt history (createWallet cfg seed)).wallet.jwt = connectToken res) ∧
      ((registerWallet cfg rt history (createWallet cfg seed)).wallet.registered = true →
        issued.map (fun c => c.request.url.endpoint) =
            [Endpoint.user_info, Endpoint.evm_connect, Endpoint.bind_invite] ∧
          (∀ c ∈ issued, ∃ res, c.outcome = .returned res) ∧
          (registerWallet cfg rt history (createWallet cfg seed)).wallet.jwt ≠ JsVal.null) := by
  refine ⟨rfl, rfl, ?_⟩
  have hcases := registerWallet_cases cfg rt history (createWallet cfg seed)
  generalize registerWallet cfg rt history (createWallet cfg seed) = run at hcases ⊢
  cases hcases with
  | noClient e hax => exact ⟨_, rfl, by simp [createWallet], by simp, by simp [createWallet]⟩
  | userInfoThrew ax e hax h1 =>
    exact ⟨_, rfl, by simp [createWallet, userInfoRequest], by simp [userInfoRequest],
      by simp [createWallet]⟩
  | signThrew ax res1 e hax h1 hsig =>
    exact ⟨_, rfl, by simp [createWallet, userInfoRequest], by simp [userInfoRequest],
      by simp [createWallet]⟩
  | connectThrew ax res1 sig e hax h1 hsig h2 =>
    exact ⟨_, rfl, by simp [createWallet, userInfoRequest, evmConnectRequest],
      by simp [userInfoRequest, evmConnectRequest], by simp [createWallet]⟩
  | noToken ax res1 sig res2 hax h1 hsig h2 htok =>
    exact ⟨_, rfl, by simp [createWallet, userInfoRequest, evmConnectRequest, htok],
      by simp [userInfoRequest, evmConnectRequest, htok], by simp [createWallet]⟩
  | bindThrew ax res1 sig res2 e hax h1 hsig h2 htok h3 =>
    have hne := ne_null_of_truthy _ htok
    exact ⟨_, rfl, by simp [userInfoRequest, evmConnectRequest, bindInviteRequest, htok, hne],
      by simp [userInfoRequest, evmConnectRequest, bindInviteRequest],
      by simp [createWallet]⟩
  | bound ax res1 sig res2 res3 hax h1 hsig h2 htok h3 =>
    have hne := ne_null_of_truthy _ htok
    exact ⟨_, rfl, by simp [userInfoRequest, evmConnectRequest, bindInviteRequest, htok, hne],
      by simp [userInfoRequest, evmConnectRequest, bindInviteRequest],
      by simp [userInfoRequest, evmConnectRequest, bindInviteRequest, hne]⟩

/-! ## Request headers -/

/-- The headers object `getDefaultHeaders` builds. -/
theorem getDefaultHeaders_eq (cfg : Config) (numStr : ℚ → JsString) (jwt : JsVal) :
    getDefaultHeaders cfg numStr jwt =
      [("accept".toList, "*/*".toList), ("Referer".toList, cfg.APP_REFERER)] ++
        (if jwt.truthy then [("authorization".toList, "jwt ".toList ++ jwt.toStr numStr)]
          else []) := by
  cases jwt <;> simp [getDefaultHeaders, JsVal.truthy]

/-- The three headers of `getDefaultHeaders`. -/
theorem header_getDefaultHeaders (cfg : Config) (numStr : ℚ → JsString) (jwt : JsVal) :
    header "accept".toList (getDefaultHeaders cfg numStr jwt) = some "*/*".toList ∧
    header "Referer".toList (getDefaultHeaders cfg numStr jwt) = some cfg.APP_REFERER ∧
    header "authorization".toList (getDefaultHeaders cfg numStr jwt) =
      (if jwt.truthy then some ("jwt ".toList ++ jwt.toStr numStr) else none) := by
  rw [getDefaultHeaders_eq]
  cases jwt.truthy <;> simp +decide [header]

/-- The headers of the user_info call: the default ones, no `authorization`. -/
theorem header_userInfoRequest (cfg : Config) (rt : Runtime) (ax : AxiosInstance)
    (wallet : Wallet) :
    header "accept".toList (userInfoRequest cfg rt ax wallet).headers = some "*/*".toList ∧
    header "Referer".toList (userInfoRequest cfg rt ax wallet).headers
      = some cfg.APP_REFERER ∧
    header "authorization".toList (userInfoRequest cfg rt ax wallet).headers = none := by
  simp +decide [userInfoRequest, getDefaultHeaders_eq, JsVal.truthy, header]

/-- The headers of the connect call: the default ones and `content-type`. -/
theorem header_evmConnectRequest (cfg : Config) (rt : Runtime) (ax : AxiosInstance)
    (wallet : Wallet) (sig : JsString) :
    header "accept".toList (evmConnectRequest cfg rt ax wallet sig).headers
      = some "*/*".toList ∧
    header "Referer".toList (evmConnectRequest cfg rt ax wallet sig).headers
      = some cfg.APP_REFERER ∧
    header "authorization".toList (evmConnectRequest cfg rt ax wallet sig).headers = none ∧
    header "content-type".toList (evmConnectRequest cfg rt ax wallet sig).headers
      = some "application/json".toList := by
  simp +decide [evmConnectRequest, getDefaultHeaders_eq, JsVal.truthy, header]

/-- The headers of the bind_invite call: the default ones for its token. -/
theorem header_bindInviteRequest (cfg : Config) (rt : Runtime) (ax : AxiosInstance)
    (jwt : JsVal) :
    header "accept".toList (bindInviteRequest cfg rt ax jwt).headers = some "*/*".toList ∧
    header "Referer".toList (bindInviteRequest cfg rt ax jwt).headers
      = some cfg.APP_REFERER ∧
    header "authorization".toList (bindInviteRequest cfg rt ax jwt).headers =
      (if jwt.truthy then some ("jwt ".toList ++ jwt.toStr rt.numStr) else none) :=
  header_getDefaultHeaders cfg rt.numStr jwt

/-- C10: `getDefaultHeaders` always has `accept = "*/*"` and `Referer` = the
configured referer, and has an `authorization` entry exactly when its argument
is truthy (for a string: non-empty), the value being `"jwt "` followed by the
text of the argument.  In a run of `registerWallet` every call carries `accept`
and `Referer`, the user_info and evm_connect calls carry no `authorization`,
and a bind_invite call carries `authorization = "jwt " ++ token`, the token
being the `data.token` of the response the evm_connect call of the same run
returned. -/
theorem handshake_headers (cfg : Config) (rt : Runtime) (history : List CallRecord)
    (wallet : Wallet) :
    (∀ jwt : JsVal,
      header "accept".toList (getDefaultHeaders cfg rt.numStr jwt) = some "*/*".toList ∧
      header "Referer".toList (getDefaultHeaders cfg rt.numStr jwt) = some cfg.APP_REFERER ∧
      header "authorization".toList (getDefaultHeaders cfg rt.numStr jwt) =
        (if jwt.truthy then some ("jwt ".toList ++ jwt.toStr rt.numStr) else none)) ∧
    (∀ token : JsString,
      header "authorization".toList (getDefaultHeaders cfg rt.numStr (.str token)) =
        (if token = [] then none else some ("jwt ".toList ++ token))) ∧
    ∃ issued : List CallRecord,
      (registerWallet cfg rt history wallet).calls = history ++ issued ∧
      (∀ c ∈ issued,
        header "accept".toList c.request.headers = some "*/*".toList ∧
        header "Referer".toList c.request.headers = some cfg.APP_REFERER) ∧
      (∀ c ∈ issued, c.request.url.endpoint ≠ Endpoint.bind_invite →
        header "authorization".toList c.request.headers = none) ∧
      (∀ c ∈ issued, c.request.url.endpoint = Endpoint.bind_invite →
        ∃ c2 ∈ issued, c2.request.url.endpoint = Endpoint.evm_connect ∧
          ∃ res, c2.outcome = .returned res ∧
            header "authorization".toList c.request.headers =
              some ("jwt ".toList ++ (connectToken res).toStr rt.numStr) ∧
            ∀ token : JsString, connectToken res = .str token →
              header "authorization".toList c.request.headers =
                some ("jwt ".toList ++ token)) := by
  refine ⟨fun jwt => header_getDefaultHeaders cfg rt.numStr jwt, ?_, ?_⟩
  · intro token
    rw [(header_getDefaultHeaders cfg rt.numStr (.str token)).2.2]
    cases token <;> simp [JsVal.truthy, JsVal.toStr]
  · have hcases := registerWallet_cases cfg rt history wallet
    have hu := fun ax => header_userInfoRequest cfg rt ax wallet
    have he := fun ax sig => header_evmConnectRequest cfg rt ax wallet sig
    have hb := fun ax jwt => header_bindInviteRequest cfg rt ax jwt
    have hue : ∀ ax, (userInfoRequest cfg rt ax wallet).url.endpoint ≠ Endpoint.bind_invite :=
      fun _ h => by cases h
    have hee : ∀ ax sig,
        (evmConnectRequest cfg rt ax wallet sig).url.endpoint ≠ Endpoint.bind_invite :=
      fun _ _ h => by cases h
    generalize registerWallet cfg rt history wallet = run at hcases ⊢
    cases hcases with
    | noClient e hax => exact ⟨_, rfl, by simp, by simp, by simp⟩
    | userInfoThrew ax e hax h1 =>
      refine ⟨_, rfl, ?_, ?_, ?_⟩ <;> intro c hc <;>
        simp only [List.mem_singleton] at hc <;> subst hc
      · exact ⟨(hu ax).1, (hu ax).2.1⟩
      · exact fun _ => (hu ax).2.2
      · exact fun h => absurd h (hue ax)
    | signThrew ax res1 e hax h1 hsig =>
      refine ⟨_, rfl, ?_, ?_, ?_⟩ <;> intro c hc <;>
        simp only [List.mem_singleton] at hc <;> subst hc
      · exact ⟨(hu ax).1, (hu ax).2.1⟩
      · exact fun _ => (hu ax).2.2
      · exact fun h => absurd h (hue ax)
    | connectThrew ax res1 sig e hax h1 hsig h2 =>
      refine ⟨_, rfl, ?_, ?_, ?_⟩ <;> intro c hc <;>
        simp only [List.mem_cons, List.mem_singleton, List.not_mem_nil, or_false] at hc <;>
        rcases hc with rfl | rfl
      · exact ⟨(hu ax).1, (hu ax).2.1⟩
      · exact ⟨(he ax sig).1, (he ax sig).2.1⟩
      · exact fun _ => (hu ax).2.2
      · exact fun _ => (he ax sig).2.2.1
      · exact fun h => absurd h (hue ax)
      · exact fun h => absurd h (hee ax sig)
    | noToken ax res1 sig res2 hax h1 hsig h2 htok =>
      refine ⟨_, rfl, ?_, ?_, ?_⟩ <;> intro c hc <;>
        simp only [List.mem_cons, List.mem_singleton, List.not_mem_nil, or_false] at hc <;>
        rcases hc with rfl | rfl
      · exact ⟨(hu ax).1, (hu ax).2.1⟩
      · exact ⟨(he ax sig).1, (he ax sig).2.1⟩
      · exact fun _ => (hu ax).2.2
      · exact fun _ => (he ax sig).2.2.1
      · exact fun h => absurd h (hue ax)
      · exact fun h => absurd h (hee ax sig)
    | bindThrew ax res1 sig res2 e hax h1 hsig h2 htok h3 =>
      have hbt := hb ax (connectToken res2)
      rw [htok] at hbt
      refine ⟨_, rfl, ?_, ?_, ?_⟩ <;> intro c hc <;>
        simp only [List.mem_cons, List.mem_singleton, List.not_mem_nil, or_false] at hc <;>
        rcases hc with rfl | rfl | rfl
      · exact ⟨(hu ax).1, (hu ax).2.1⟩
      · exact ⟨(he ax sig).1, (he ax sig).2.1⟩
      · exact ⟨hbt.1, hbt.2.1⟩
      · exact fun _ => (hu ax).2.2
      · exact fun _ => (he ax sig).2.2.1
      · exact fun h => absurd rfl h
      · exact fun h => absurd h (hue ax)
      · exact fun h => absurd h (hee ax sig)
      · intro _
        refine ⟨_, List.mem_cons_of_mem _ (List.mem_cons_self _ _), rfl, res2, rfl, hbt.2.2, ?_⟩
        intro token htoken
        rw [hbt.2.2, htoken]
        rfl
    | bound ax res1 sig res2 res3 hax h1 hsig h2 htok h3 =>
      have hbt := hb ax (connectToken res2)
      rw [htok] at hbt
      refine ⟨_, rfl, ?_, ?_, ?_⟩ <;> intro c hc <;>
        simp only [List.mem_cons, List.mem_singleton, List.not_mem_nil, or_false] at hc <;>
        rcases hc with rfl | rfl | rfl
      · exact ⟨(hu ax).1, (hu ax).2.1⟩
      · exact ⟨(he ax sig).1, (he ax sig).2.1⟩
      · exact ⟨hbt.1, hbt.2.1⟩
      · exact fun _ => (hu ax).2.2
      · exact fun _ => (he ax sig).2.2.1
      · exact fun h => absurd rfl h
      · exact fun h => absurd h (hue ax)
      · exact fun h => absurd h (hee ax sig)
      · intro _
        refine ⟨_, List.mem_cons_of_mem _ (List.mem_cons_self _ _), rfl, res2, rfl, hbt.2.2, ?_⟩
        intro token htoken
        rw [hbt.2.2, htoken]
        rfl

/-! ## Proxy selection and the proxy URL -/

/-- What `excessBits` finds: dropping that many bits leaves at most 53, and
when bits are dropped exactly 53 are left. -/
theorem excessBits_spec (fuel M : Nat) (h : M ≤ fuel) :
    M / 2 ^ excessBits fuel M < 2 ^ 53 ∧
    (0 < excessBits fuel M → 2 ^ (52 + excessBits fuel M) ≤ M) := by
  induction fuel generalizing M with
  | zero =>
    have hM : M = 0 := by omega
    subst hM
    simp [excessBits]
  | succ fuel ih =>
    unfold excessBits
    by_cases hM : M < 2 ^ 53
    · rw [if_pos hM]
      simpa using hM
    · rw [if_neg hM]
      have hhalf : M / 2 ≤ fuel := by omega
      obtain ⟨hlt, hge⟩ := ih (M / 2) hhalf
      constructor
      · rw [pow_succ, Nat.mul_comm, ← Nat.div_div_eq_div_mul]
        exact hlt
      · intro _
        by_cases hk : 0 < excessBits fuel (M / 2)
        · have h1 := hge hk
          have h2 : 2 ^ (52 + (excessBits fuel (M / 2) + 1)) =
              2 * 2 ^ (52 + excessBits fuel (M / 2)) := by
            rw [← Nat.add_assoc, pow_succ, Nat.mul_comm]
          rw [h2]
          omega
        · have hk0 : excessBits fuel (M / 2) = 0 := by omega
          rw [hk0]
          omega

/-- Rounding moves an integer up by at most half of the last kept bit. -/
theorem roundToSignificand_le (M : Nat) :
    2 * roundToSignificand M ≤ 2 * M + 2 ^ excessBits M M := by
  unfold roundToSignificand
  dsimp only
  have hdiv := Nat.div_add_mod M (2 ^ excessBits M M)
  have hmod : M % 2 ^ excessBits M M < 2 ^ excessBits M M := Nat.mod_lt _ (by positivity)
  generalize 2 ^ excessBits M M = P at hdiv hmod ⊢
  generalize M / P = q at hdiv ⊢
  generalize M % P = r at hdiv hmod ⊢
  have hqP : q * P = P * q := Nat.mul_comm _ _
  split
  · rename_i hup
    have h2 : (q + 1) * P = P * q + P := by rw [Nat.add_mul, Nat.one_mul, hqP]
    rw [h2]
    rcases hup with hup | hup <;> omega
  · rw [hqP]
    omega

/-- An integer with at most 53 significant bits is not changed by rounding. -/
theorem roundToSignificand_small (M : Nat) (h : M < 2 ^ 53) : roundToSignificand M = M := by
  have hk : excessBits M M = 0 := by
    cases M with
    | zero => rfl
    | succ n =>
      unfold excessBits
      rw [if_pos h]
  simp [roundToSignificand, hk, Nat.mod_one]

/-- The index drawn for a non-empty pool lies inside the pool: the rounded
product of a double below 1 and the length stays below the length. -/
theorem randomIndex_lt (r : Draw) (length : Nat) (hr : r.inRange) (hlen : 0 < length) :
    randomIndex r length < length := by
  obtain ⟨hm53, hm1, _⟩ := hr
  unfold randomIndex
  rw [Nat.div_lt_iff_lt_mul (by positivity)]
  have hgap : r.mantissa * length + length ≤ length * 2 ^ r.scale := by
    have : (r.mantissa + 1) * length ≤ 2 ^ r.scale * length :=
      Nat.mul_le_mul_right _ hm1
    rw [Nat.add_mul, Nat.one_mul] at this
    rw [Nat.mul_comm length]
    exact this
  have hround := roundToSignificand_le (r.mantissa * length)
  obtain ⟨_, hbits⟩ := excessBits_spec (r.mantissa * length) (r.mantissa * length) (Nat.le_refl _)
  by_cases hk : 0 < excessBits (r.mantissa * length) (r.mantissa * length)
  · have h1 := hbits hk
    have h2 : r.mantissa * length < 2 ^ 53 * length :=
      Nat.mul_lt_mul_of_pos_right hm53 hlen
    have h3 : 2 ^ (52 + excessBits (r.mantissa * length) (r.mantissa * length)) =
        2 ^ 52 * 2 ^ excessBits (r.mantissa * length) (r.mantissa * length) := pow_add _ _ _
    rw [h3] at h1
    generalize 2 ^ excessBits (r.mantissa * length) (r.mantissa * length) = P at h1 hround
    omega
  · have hk0 : excessBits (r.mantissa * length) (r.mantissa * length) = 0 := by omega
    rw [hk0] at hround
    omega

/-- C7: for every proxy pool and every draw `r` in the range of
`Math.random` (a double with `0 ≤ r < 1`), a non-empty pool gives an index
`floor(r * length)` inside the pool and a `proxy` field that is an element of
the pool; an empty pool gives `proxy = null`; the field is never
`undefined`. -/
theorem createWallet_proxy (cfg : Config) (seed : WalletSeed) (hr : seed.random.inRange) :
    (cfg.PROXIES ≠ [] →
      randomIndex seed.random cfg.PROXIES.length < cfg.PROXIES.length ∧
      ∃ p ∈ cfg.PROXIES, (createWallet cfg seed).proxy = JsVal.str p) ∧
    (cfg.PROXIES = [] → (createWallet cfg seed).proxy = JsVal.null) ∧
    (createWallet cfg seed).proxy ≠ JsVal.undefined := by
  have hne : cfg.PROXIES ≠ [] →
      randomIndex seed.random cfg.PROXIES.length < cfg.PROXIES.length ∧
      ∃ p ∈ cfg.PROXIES, (createWallet cfg seed).proxy = JsVal.str p := by
    intro hpool
    have hlen : 0 < cfg.PROXIES.length := List.length_pos.mpr hpool
    have hi := randomIndex_lt seed.random cfg.PROXIES.length hr hlen
    refine ⟨hi, cfg.PROXIES[randomIndex seed.random cfg.PROXIES.length], List.getElem_mem _, ?_⟩
    simp [createWallet, indexPool, hlen, List.getElem?_eq_getElem hi]
  refine ⟨hne, ?_, ?_⟩
  · intro hpool
    simp [createWallet, hpool]
  · by_cases hpool : cfg.PROXIES = []
    · simp [createWallet, hpool]
    · obtain ⟨_, p, _, hp⟩ := hne hpool
      rw [hp]
      exact fun h => by cases h

/-- C7 at a concrete input: a pool of two proxies and the draw 0.75. -/
theorem createWallet_proxy_witness :
    sampleSeed.random.inRange ∧
    sampleConfig.PROXIES ≠ [] ∧
    ∃ p ∈ sampleConfig.PROXIES, (createWallet sampleConfig sampleSeed).proxy = JsVal.str p :=
  ⟨by decide, by decide,
    ((createWallet_proxy sampleConfig sampleSeed (by decide)).1 (by decide)).2⟩

/-- A string that starts with `p ++ q` starts with `p`. -/
theorem startsWith_of_append (s p q : JsString) (h : startsWith s (p ++ q) = true) :
    startsWith s p = true := by
  induction p generalizing s with
  | nil => cases s <;> rfl
  | cons c p ih =>
    cases s with
    | nil => simp [startsWith] at h
    | cons d s =>
      simp only [List.cons_append, startsWith, Bool.and_eq_true] at h ⊢
      exact ⟨h.1, ih s h.2⟩

/-- The string `q ++ s` starts with `q`. -/
theorem startsWith_append_self (q s : JsString) : startsWith (q ++ s) q = true := by
  induction q with
  | nil => cases s <;> rfl
  | cons c q ih => simp [startsWith, ih]

/-- A proxy that already starts with `http://` or `https://` is used as it
is. -/
theorem proxyUrl_of_scheme (p : JsString)
    (h : startsWith p "http://".toList = true ∨ startsWith p "https://".toList = true) :
    proxyUrl p = p := by
  have hs : startsWith p "http".toList = true := by
    rcases h with h | h
    · exact startsWith_of_append p "http".toList "://".toList h
    · exact startsWith_of_append p "http".toList "s://".toList h
  rw [proxyUrl, if_pos hs]

/-- A proxy that does not start with the letters `http` gets `http://` put in
front. -/
theorem proxyUrl_of_not_http (p : JsString) (h : startsWith p "http".toList = false) :
    proxyUrl p = "http://".toList ++ p ∧
    startsWith (proxyUrl p) "http://".toList = true := by
  have hp : proxyUrl p = "http://".toList ++ p := by
    rw [proxyUrl, if_neg (by rw [h]; exact Bool.false_ne_true)]
  exact ⟨hp, by rw [hp]; exact startsWith_append_self _ _⟩

/-- With no proxy (`undefined`, `null` or the empty string) the default
client is returned. -/
theorem createAxiosInstance_no_proxy (rt : Runtime) :
    createAxiosInstance rt .undefined = .ok .axios ∧
    createAxiosInstance rt .null = .ok .axios ∧
    createAxiosInstance rt (.str []) = .ok .axios := by
  refine ⟨rfl, rfl, rfl⟩

/-- C8, at the bare entry `httpproxy.local:8080`: the host name begins with
the letters `http`, so `createAxiosInstance` hands the entry to the agent
unchanged; the proxy URL is not `"http://" + p` and does not start with
`http://`. -/
theorem proxyUrl_host_named_http :
    proxyUrl "httpproxy.local:8080".toList = "httpproxy.local:8080".toList ∧
    proxyUrl "httpproxy.local:8080".toList ≠ "http://".toList ++ "httpproxy.local:8080".toList ∧
    startsWith (proxyUrl "httpproxy.local:8080".toList) "http://".toList = false ∧
    ∀ rt : Runtime, rt.newHttpsProxyAgent "httpproxy.local:8080".toList = none →
      createAxiosInstance rt (.str "httpproxy.local:8080".toList) =
        .ok (.create "httpproxy.local:8080".toList false 10000) := by
  refine ⟨by decide, by decide, by decide, ?_⟩
  intro rt hrt
  have hp : proxyUrl "httpproxy.local:8080".toList = "httpproxy.local:8080".toList := by decide
  simp only [createAxiosInstance, JsVal.truthy, hp, hrt]
  rfl

/-! ## Loading the topics and proxies files -/

/-- The method `split` never returns an empty array. -/
theorem split_ne_nil (sep : Char) (s : JsString) : split sep s ≠ [] := by
  cases s with
  | nil => simp [split]
  | cons c cs =>
    unfold split
    by_cases h : c = sep
    · simp [h]
    · rw [if_neg h]
      cases split sep cs <;> simp

/-- Joining an array whose first item starts with `c`. -/
theorem join_cons_head (sep c : Char) (l : JsString) (ls : List JsString) :
    join sep ((c :: l) :: ls) = c :: join sep (l :: ls) := by
  cases ls <;> simp [join]

/-- Joining the pieces of a split gives the text back. -/
theorem join_split (sep : Char) (s : JsString) : join sep (split sep s) = s := by
  induction s with
  | nil => rfl
  | cons c cs ih =>
    unfold split
    by_cases h : c = sep
    · rw [if_pos h]
      cases hs : split sep cs with
      | nil => exact absurd hs (split_ne_nil sep cs)
      | cons l ls =>
        rw [hs] at ih
        simp [join, ih, h]
    · rw [if_neg h]
      cases hs : split sep cs with
      | nil => exact absurd hs (split_ne_nil sep cs)
      | cons l ls =>
        rw [hs] at ih
        simp only []
        rw [join_cons_head, ih]

/-- No piece of a split holds the separator. -/
theorem not_mem_of_mem_split (sep : Char) (s : JsString) :
    ∀ l ∈ split sep s, sep ∉ l := by
  induction s with
  | nil => simp [split]
  | cons c cs ih =>
    unfold split
    by_cases h : c = sep
    · rw [if_pos h]
      intro l hl
      rcases List.mem_cons.mp hl with rfl | hl
      · simp
      · exact ih l hl
    · rw [if_neg h]
      cases hs : split sep cs with
      | nil => exact absurd hs (split_ne_nil sep cs)
      | cons l0 ls =>
        rw [hs] at ih
        intro l hl
        rcases List.mem_cons.mp hl with rfl | hl
        · have := ih l0 (List.mem_cons_self _ _)
          simp only [List.mem_cons, not_or]
          exact ⟨fun hc => h hc.symm, this⟩
        · exact ih l (List.mem_cons_of_mem _ hl)

/-- A text without the separator splits into itself. -/
theorem split_of_not_mem (sep : Char) (x : JsString) (hx : sep ∉ x) : split sep x = [x] := by
  induction x with
  | nil => rfl
  | cons c cs ih =>
    simp only [List.mem_cons, not_or] at hx
    unfold split
    rw [if_neg (fun hc => hx.1 hc.symm), ih hx.2]

/-- Splitting a text at the first separator. -/
theorem split_append_sep (sep : Char) (x rest : JsString) (hx : sep ∉ x) :
    split sep (x ++ sep :: rest) = x :: split sep rest := by
  induction x with
  | nil => simp [split]
  | cons c cs ih =>
    simp only [List.mem_cons, not_or] at hx
    rw [List.cons_append, split, if_neg (fun hc => hx.1 hc.symm), ih hx.2]

/-- Splitting the join of separator-free items gives the items back. -/
theorem split_join (sep : Char) (ls : List JsString) (hne : ls ≠ [])
    (hls : ∀ l ∈ ls, sep ∉ l) : split sep (join sep ls) = ls := by
  induction ls with
  | nil => exact absurd rfl hne
  | cons x rest ih =>
    cases rest with
    | nil => exact split_of_not_mem sep x (hls x (List.mem_cons_self _ _))
    | cons y rest =>
      have hx := hls x (List.mem_cons_self _ _)
      have hrest := ih (by simp) (fun l hl => hls l (List.mem_cons_of_mem _ hl))
      rw [join, split_append_sep sep x _ hx, hrest]

/-- What is left of `dropWhile` does not start with a dropped character. -/
theorem head_dropWhile_false (p : Char → Bool) (l : JsString) :
    ∀ c, (l.dropWhile p).head? = some c → p c = false := by
  induction l with
  | nil => simp
  | cons a l ih =>
    intro c hc
    by_cases ha : p a = true
    · rw [List.dropWhile_cons_of_pos ha] at hc
      exact ih c hc
    · rw [List.dropWhile_cons_of_neg ha] at hc
      simp only [List.head?_cons, Option.some.injEq] at hc
      rw [← hc]
      simpa using ha

/-- What is left of `rdropWhile` does not end with a dropped character. -/
theorem getLast_rdropWhile_false (p : Char → Bool) (l : JsString) :
    ∀ c, (l.rdropWhile p).getLast? = some c → p c = false := by
  intro c hc
  rw [List.rdropWhile, List.getLast?_reverse] at hc
  exact head_dropWhile_false p l.reverse c hc

/-- Nothing is dropped from a text that starts with a kept character. -/
theorem dropWhile_eq_self (p : Char → Bool) (l : JsString)
    (h : ∀ c, l.head? = some c → p c = false) : l.dropWhile p = l := by
  cases l with
  | nil => rfl
  | cons a l =>
    have ha : ¬ p a = true := by simp [h a rfl]
    exact List.dropWhile_cons_of_neg ha

/-- Nothing is dropped from a text that ends with a kept character. -/
theorem rdropWhile_eq_self (p : Char → Bool) (l : JsString)
    (h : ∀ c, l.getLast? = some c → p c = false) : l.rdropWhile p = l := by
  rw [List.rdropWhile, dropWhile_eq_self p l.reverse, List.reverse_reverse]
  intro c hc
  rw [List.head?_reverse] at hc
  exact h c hc

/-- A trimmed text has no white space at its start. -/
theorem head_trim (s : JsString) : ∀ c, (trim s).head? = some c → isWhiteSpace c = false := by
  intro c hc
  unfold trim at hc
  obtain ⟨r, hr⟩ := List.rdropWhile_prefix isWhiteSpace (s.dropWhile isWhiteSpace)
  apply head_dropWhile_false isWhiteSpace s c
  rw [← hr]
  cases hu : List.rdropWhile isWhiteSpace (s.dropWhile isWhiteSpace) with
  | nil => rw [hu] at hc; simp at hc
  | cons a u => rw [hu] at hc; simpa using hc

/-- A trimmed text has no white space at its end. -/
theorem getLast_trim (s : JsString) :
    ∀ c, (trim s).getLast? = some c → isWhiteSpace c = false :=
  getLast_rdropWhile_false isWhiteSpace _

/-- A text with no white space at either end is its own trim. -/
theorem trim_eq_self (l : JsString) (hhead : ∀ c, l.head? = some c → isWhiteSpace c = false)
    (hlast : ∀ c, l.getLast? = some c → isWhiteSpace c = false) : trim l = l := by
  rw [trim, dropWhile_eq_self isWhiteSpace l hhead, rdropWhile_eq_self isWhiteSpace l hlast]

/-- A text is what `rdropWhile` keeps followed by what it drops. -/
theorem rdropWhile_append_rtakeWhile (p : Char → Bool) (l : JsString) :
    l.rdropWhile p ++ l.rtakeWhile p = l := by
  rw [List.rdropWhile, List.rtakeWhile, ← List.reverse_append,
    List.takeWhile_append_dropWhile, List.reverse_reverse]

/-- A text is its trim between two runs of white space. -/
theorem trim_decomposition (s : JsString) :
    ∃ pre post : JsString, s = pre ++ trim s ++ post ∧
      (∀ c ∈ pre, isWhiteSpace c = true) ∧ (∀ c ∈ post, isWhiteSpace c = true) := by
  refine ⟨s.takeWhile isWhiteSpace, (s.dropWhile isWhiteSpace).rtakeWhile isWhiteSpace, ?_, ?_, ?_⟩
  · rw [trim, List.append_assoc, rdropWhile_append_rtakeWhile,
      List.takeWhile_append_dropWhile]
  · exact fun c hc => List.mem_takeWhile_imp hc
  · exact fun c hc => List.mem_rtakeWhile_imp hc

/-- A character of the trim is a character of the text. -/
theorem mem_of_mem_trim (s : JsString) (c : Char) (hc : c ∈ trim s) : c ∈ s :=
  (List.dropWhile_suffix isWhiteSpace).subset
    ((List.rdropWhile_prefix isWhiteSpace (s.dropWhile isWhiteSpace)).subset hc)

/-- Each loaded entry is a trimmed line: not empty, without a line break, and
its own trim. -/
theorem loadLines_entry (content : JsString) :
    ∀ l ∈ loadLines content, l ≠ [] ∧ '\n' ∉ l ∧ trim l = l := by
  intro l hl
  simp only [loadLines, List.mem_filter, List.mem_map] at hl
  obtain ⟨⟨x, hx, rfl⟩, hne⟩ := hl
  refine ⟨?_, ?_, ?_⟩
  · intro h
    rw [h] at hne
    simp at hne
  · exact fun hmem => not_mem_of_mem_split '\n' content x hx (mem_of_mem_trim x _ hmem)
  · exact trim_eq_self _ (head_trim x) (getLast_trim x)

/-- Loading is idempotent: the loaded entries, joined by line breaks and
loaded again, are the same entries. -/
theorem loadLines_idempotent (content : JsString) :
    loadLines (join '\n' (loadLines content)) = loadLines content := by
  have hent := loadLines_entry content
  generalize loadLines content = L at hent
  by_cases hL : L = []
  · subst hL
    decide
  · rw [loadLines, split_join '\n' L hL (fun l hl => (hent l hl).2.1)]
    have hmap : L.map trim = L := by
      conv_rhs => rw [← List.map_id L]
      exact List.map_congr_left (fun l hl => (hent l hl).2.2)
    rw [hmap, List.filter_eq_self]
    intro l hl
    have := (hent l hl).1
    cases l with
    | nil => exact absurd rfl this
    | cons a l => rfl

/-- C9: for every text of the topics or proxies file, the pieces of
`split` are the lines of the text (joined by line breaks they give the text
back, and none holds a line break); `trim` removes a run of white space at
each end and leaves none there; the loaded list is the trimmed lines, in
order, without the empty ones; no loaded entry is empty or starts or ends with
white space; loading the loaded entries joined by line breaks gives the same
list; `config` loads both files this way, and two hosts with the same files
get the same lists. -/
theorem loadLines_spec (content : JsString) :
    (join '\n' (split '\n' content) = content ∧ ∀ l ∈ split '\n' content, '\n' ∉ l) ∧
    (∀ s : JsString, ∃ pre post : JsString, s = pre ++ trim s ++ post ∧
      (∀ c ∈ pre, isWhiteSpace c = true) ∧ (∀ c ∈ post, isWhiteSpace c = true) ∧
      (∀ c, (trim s).head? = some c → isWhiteSpace c = false) ∧
      (∀ c, (trim s).getLast? = some c → isWhiteSpace c = false)) ∧
    loadLines content = ((split '\n' content).map trim).filter (fun l => decide (l ≠ [])) ∧
    (∀ l ∈ loadLines content, l ≠ [] ∧
      (∀ c, l.head? = some c → isWhiteSpace c = false) ∧
      (∀ c, l.getLast? = some c → isWhiteSpace c = false)) ∧
    loadLines (join '\n' (loadLines content)) = loadLines content ∧
    (∀ host : Host, host.readFile "topics.txt".toList = some content →
      (config host).CHAT_TOPICS = loadLines content) ∧
    (∀ host : Host, host.readFile "proxies.txt".toList = some content →
      (config host).PROXIES = loadLines content) ∧
    (∀ host1 host2 : Host, host1.readFile = host2.readFile →
      (config host1).CHAT_TOPICS = (config host2).CHAT_TOPICS ∧
      (config host1).PROXIES = (config host2).PROXIES) := by
  refine ⟨⟨join_split _ _, not_mem_of_mem_split _ _⟩, ?_, ?_, ?_, loadLines_idempotent content,
    ?_, ?_, ?_⟩
  · intro s
    obtain ⟨pre, post, h1, h2, h3⟩ := trim_decomposition s
    exact ⟨pre, post, h1, h2, h3, head_trim s, getLast_trim s⟩
  · unfold loadLines
    apply List.filter_congr
    intro l _
    cases l <;> simp
  · intro l hl
    obtain ⟨hne, _, htrim⟩ := loadLines_entry content l hl
    rw [← htrim]
    exact ⟨by rw [htrim]; exact hne, head_trim l, getLast_trim l⟩
  · intro host h
    simp only [config, h]
  · intro host h
    simp only [config, h]
  · intro host1 host2 h
    simp only [config, h, and_self]

/-! ## The driver -/

/-- The completion of `registerWallet` is a returned boolean. -/
theorem registerWallet_completion (cfg : Config) (rt : Runtime) (history : List CallRecord)
    (wallet : Wallet) : ∃ b, (registerWallet cfg rt history wallet).completion = .ok b := by
  unfold registerWallet
  dsimp only
  cases (registerWallet.tryBlock cfg rt history wallet).completion <;> exact ⟨_, rfl⟩

/-- After a run that returned `true` the record is registered and has a
token; after a run that returned `false` the field `registered` is as
before. -/
theorem registerWallet_record (cfg : Config) (rt : Runtime) (history : List CallRecord)
    (wallet : Wallet) :
    ((registerWallet cfg rt history wallet).completion = .ok true →
      (registerWallet cfg rt history wallet).wallet.registered = true ∧
      (registerWallet cfg rt history wallet).wallet.jwt ≠ JsVal.null) ∧
    ((registerWallet cfg rt history wallet).completion = .ok false →
      (registerWallet cfg rt history wallet).wallet.registered = wallet.registered) := by
  have h := registerWallet_cases cfg rt history wallet
  generalize registerWallet cfg rt history wallet = run at h ⊢
  cases h with
  | bound ax res1 sig res2 res3 hax h1 hsig h2 htok h3 =>
    exact ⟨fun _ => ⟨rfl, ne_null_of_truthy _ htok⟩, fun h => by cases h⟩
  | _ => exact ⟨fun h => (by cases h), fun _ => rfl⟩

/-- One pass of the loop body, from a state in which nothing was thrown. -/
theorem main_iteration_eq (cfg : Config) (rt : Runtime) (seeds : Nat → WalletSeed)
    (count : Int) (st : LoopState) (i : Nat) (hst : st.thrown = none) :
    ∃ b, (registerWallet cfg rt st.calls (createWallet cfg (seeds i))).completion = .ok b ∧
      main.iteration cfg rt seeds count st i =
        { wallets :=
            if b then
              st.wallets ++ [(registerWallet cfg rt st.calls (createWallet cfg (seeds i))).wallet]
            else st.wallets
          calls := (registerWallet cfg rt st.calls (createWallet cfg (seeds i))).calls
          attempts := st.attempts ++
            [⟨createWallet cfg (seeds i),
              (registerWallet cfg rt st.calls (createWallet cfg (seeds i))).wallet, b⟩]
          delays :=
            if (i : Int) < count - 1 then st.delays ++ [cfg.DELAYS.betweenWallets]
            else st.delays
          thrown := none } := by
  obtain ⟨b, hb⟩ := registerWallet_completion cfg rt st.calls (createWallet cfg (seeds i))
  refine ⟨b, hb, ?_⟩
  unfold main.iteration
  rw [hst]
  simp only [hb]

/-- What holds after the first `n` passes of the loop: nothing was thrown;
the array `wallets` holds the records of the invocations that returned
`true`, in order; the invocations were made on the first `n` created records,
in order; and each invocation records what `registerWallet` returned and left
of the record. -/
theorem main_loop_invariant (cfg : Config) (rt : Runtime) (seeds : Nat → WalletSeed)
    (count : Int) (n : Nat) :
    ((List.range n).foldl (main.iteration cfg rt seeds count) ⟨[], [], [], [], none⟩).thrown
      = none ∧
    ((List.range n).foldl (main.iteration cfg rt seeds count) ⟨[], [], [], [], none⟩).wallets
      = ((((List.range n).foldl (main.iteration cfg rt seeds count)
          ⟨[], [], [], [], none⟩).attempts).filter (fun a => a.returned)).map (fun a => a.after) ∧
    (((List.range n).foldl (main.iteration cfg rt seeds count)
        ⟨[], [], [], [], none⟩).attempts).map (fun a => a.created)
      = (List.range n).map (fun i => createWallet cfg (seeds i)) ∧
    ∀ a ∈ ((List.range n).foldl (main.iteration cfg rt seeds count)
        ⟨[], [], [], [], none⟩).attempts,
      ∃ hist, (registerWallet cfg rt hist a.created).completion = .ok a.returned ∧
        (registerWallet cfg rt hist a.created).wallet = a.after := by
  induction n with
  | zero => simp
  | succ n ih =>
    rw [List.range_succ, List.foldl_append, List.foldl_cons, List.foldl_nil]
    generalize (List.range n).foldl (main.iteration cfg rt seeds count) ⟨[], [], [], [], none⟩
      = st at ih ⊢
    obtain ⟨hthrown, hwallets, hcreated, hruns⟩ := ih
    obtain ⟨b, hb, hiter⟩ := main_iteration_eq cfg rt seeds count st n hthrown
    rw [hiter]
    refine ⟨rfl, ?_, ?_, ?_⟩
    · cases b <;> simp [hwallets]
    · simp [hcreated, List.range_succ]
    · intro a ha
      simp only [List.mem_append, List.mem_singleton] at ha
      rcases ha with ha | rfl
      · exact hruns a ha
      · exact ⟨st.calls, hb, rfl⟩

/-- The loop makes `count` invocations of `registerWallet` (none for a
negative `count`). -/
theorem main_loop_attempts_length (cfg : Config) (rt : Runtime) (seeds : Nat → WalletSeed)
    (count : Int) : (main.loop cfg rt seeds count).attempts.length = count.toNat := by
  have h := (main_loop_invariant cfg rt seeds count count.toNat).2.2.1
  have hlen := congrArg List.length h
  simpa [main.loop] using hlen

/-- The number of invocations `main` makes is the loop count. -/
theorem main_attempts_length (cfg : Config) (rt : Runtime) (seeds : Nat → WalletSeed)
    (typed : JsString) :
    (main cfg rt seeds typed).attempts.length = (walletCount (trim typed)).toNat :=
  main_loop_attempts_length cfg rt seeds (walletCount (trim typed))

/-- C2: for every typed answer (so for every loop count), every sequence of
created records and every behaviour of the transport, `main` reaches the
write, and the array it serialises is, in creation order, the records of
exactly those invocations of `registerWallet` that returned `true`; the
invocations are made on the created records in order; every saved record has
`registered = true` and a `jwt` that is not `null`; the record of an
invocation that returned `false` is not saved. -/
theorem main_saves_registered (cfg : Config) (rt : Runtime) (seeds : Nat → WalletSeed)
    (typed : JsString) :
    ∃ saved : List Wallet,
      (main cfg rt seeds typed).saved = some saved ∧
      saved =
        ((main cfg rt seeds typed).attempts.filter (fun a => a.returned)).map
          (fun a => a.after) ∧
      (main cfg rt seeds typed).attempts.map (fun a => a.created) =
        (List.range (walletCount (trim typed)).toNat).map (fun i => createWallet cfg (seeds i)) ∧
      (∀ a ∈ (main cfg rt seeds typed).attempts,
        ∃ hist, (registerWallet cfg rt hist a.created).completion = .ok a.returned ∧
          (registerWallet cfg rt hist a.created).wallet = a.after) ∧
      (∀ w ∈ saved, w.registered = true ∧ w.jwt ≠ JsVal.null) ∧
      (∀ a ∈ (main cfg rt seeds typed).attempts, a.returned = false →
        a.after ∉ saved ∧ a.created ∉ saved) := by
  obtain ⟨hthrown, hwallets, hcreated, hruns⟩ :=
    main_loop_invariant cfg rt seeds (walletCount (trim typed)) (walletCount (trim typed)).toNat
  have hsaved : ∀ w ∈ (main.loop cfg rt seeds (walletCount (trim typed))).wallets,
      w.registered = true ∧ w.jwt ≠ JsVal.null := by
    intro w hw
    rw [main.loop, hwallets] at hw
    simp only [List.mem_map, List.mem_filter] at hw
    obtain ⟨a, ⟨ha, hret⟩, rfl⟩ := hw
    obtain ⟨hist, hc, hwal⟩ := hruns a ha
    rw [hret] at hc
    rw [← hwal]
    exact (registerWallet_record cfg rt hist a.created).1 hc
  have hfresh : ∀ a ∈ (main.loop cfg rt seeds (walletCount (trim typed))).attempts,
      a.created.registered = false := by
    intro a ha
    have hmem : a.created ∈ (List.range (walletCount (trim typed)).toNat).map
        (fun i => createWallet cfg (seeds i)) := by
      rw [← hcreated]
      exact List.mem_map_of_mem _ ha
    obtain ⟨i, _, hi⟩ := List.mem_map.mp hmem
    rw [← hi]
    rfl
  refine ⟨(main.loop cfg rt seeds (walletCount (trim typed))).wallets, ?_, hwallets, hcreated,
    hruns, hsaved, ?_⟩
  · simp only [main]
    rw [show (main.loop cfg rt seeds (walletCount (trim typed))).thrown = none from hthrown]
  · intro a ha hret
    have hc := hfresh a ha
    obtain ⟨hist, hcomp, hwal⟩ := hruns a ha
    rw [hret] at hcomp
    have hafter : a.after.registered = false := by
      rw [← hwal, (registerWallet_record cfg rt hist a.created).2 hcomp, hc]
    constructor
    · intro hmem
      have := (hsaved _ hmem).1
      rw [hafter] at this
      cases this
    · intro hmem
      have := (hsaved _ hmem).1
      rw [hc] at this
      cases this

/-- C1, at the typed answer `0`: `parseInt` gives 0, which `|| 1` replaces by
1, so `main` invokes `registerWallet` once, whatever the collaborators do; with
a transport on which the handshake succeeds a list of one wallet is written,
not an empty one. -/
theorem main_typed_zero (cfg : Config) (rt : Runtime) (seeds : Nat → WalletSeed) :
    parseInt (trim (decimalText 0)) = some 0 ∧
    walletCount (trim (decimalText 0)) = 1 ∧
    (main cfg rt seeds (decimalText 0)).attempts.length = 1 ∧
    (main sampleConfig sampleRuntime (fun _ => sampleSeed) (decimalText 0)).saved.map List.length
      = some 1 := by
  refine ⟨by decide, by decide, ?_, by decide⟩
  rw [main_attempts_length]
  decide

/-! ## The typed count -/

/-- The accumulator of `Nat.toDigitsCore` is kept at the end. -/
theorem toDigitsCore_append (fuel n : Nat) (ds : List Char) :
    Nat.toDigitsCore 10 fuel n ds = Nat.toDigitsCore 10 fuel n [] ++ ds := by
  induction fuel generalizing n ds with
  | zero => rfl
  | succ fuel ih =>
    simp only [Nat.toDigitsCore]
    by_cases hn : n / 10 = 0
    · simp [hn]
    · rw [if_neg hn, if_neg hn, ih (n / 10) (_ :: ds), ih (n / 10) [_]]
      simp

/-- Enough fuel is enough: the digits do not depend on it. -/
theorem toDigitsCore_fuel (fuel1 fuel2 n : Nat) (h1 : n < fuel1) (h2 : n < fuel2) :
    Nat.toDigitsCore 10 fuel1 n [] = Nat.toDigitsCore 10 fuel2 n [] := by
  induction fuel1 generalizing fuel2 n with
  | zero => omega
  | succ fuel1 ih =>
    cases fuel2 with
    | zero => omega
    | succ fuel2 =>
      simp only [Nat.toDigitsCore]
      by_cases hn : n / 10 = 0
      · simp [hn]
      · have hlt : n / 10 < n := Nat.div_lt_self (by omega) (by decide)
        rw [if_neg hn, if_neg hn, toDigitsCore_append fuel1, toDigitsCore_append fuel2,
          ih fuel2 (n / 10) (by omega) (by omega)]

/-- The decimal text of `n` is that of `n / 10` followed by the last digit. -/
theorem decimalText_step (n : Nat) (hn : 10 ≤ n) :
    decimalText n = decimalText (n / 10) ++ [Nat.digitChar (n % 10)] := by
  have hne : ¬ n / 10 = 0 := by omega
  have hlt : n / 10 < n := Nat.div_lt_self (by omega) (by decide)
  rw [decimalText, Nat.toDigits, Nat.toDigitsCore]
  rw [if_neg hne, toDigitsCore_append, decimalText, Nat.toDigits,
    toDigitsCore_fuel n (n / 10 + 1) (n / 10) hlt (by omega)]

/-- The decimal text of a number below ten is its digit. -/
theorem decimalText_digit (n : Nat) (hn : n < 10) : decimalText n = [Nat.digitChar n] := by
  interval_cases n <;> rfl

/-- A decimal digit character and its value. -/
theorem digitChar_props (d : Nat) (hd : d < 10) :
    isWhiteSpace (Nat.digitChar d) = false ∧ isRadixDigit 10 (Nat.digitChar d) = true ∧
    digitValue (Nat.digitChar d) = some d ∧ Nat.digitChar d ≠ '-' ∧ Nat.digitChar d ≠ '+' ∧
    Nat.digitChar d ≠ 'x' ∧ Nat.digitChar d ≠ 'X' := by
  interval_cases d <;> decide

/-- A text that starts with neither sign has no sign to strip. -/
theorem stripSign_eq_self (c : Char) (rest : JsString) (h1 : c ≠ '-') (h2 : c ≠ '+') :
    parseInt.isNegative (c :: rest) = false ∧ parseInt.stripSign (c :: rest) = c :: rest := by
  constructor
  · unfold parseInt.isNegative
    split
    · rename_i heq
      injection heq with heq _
      exact absurd heq h1
    · rfl
  · unfold parseInt.stripSign
    split
    · rename_i heq
      injection heq with heq _
      exact absurd heq h1
    · rename_i heq
      injection heq with heq _
      exact absurd heq h2
    · rfl

/-- A text whose second character is not `x` or `X` is read in radix 10. -/
theorem radix_eq_ten (s : JsString)
    (h : ∀ c1 c2 t, s = c1 :: c2 :: t → c2 ≠ 'x' ∧ c2 ≠ 'X') :
    parseInt.radix s = 10 ∧ parseInt.stripRadix s = s := by
  constructor
  · unfold parseInt.radix
    split
    · exact absurd rfl (h _ _ _ rfl).1
    · exact absurd rfl (h _ _ _ rfl).2
    · rfl
  · unfold parseInt.stripRadix
    split
    · exact absurd rfl (h _ _ _ rfl).1
    · exact absurd rfl (h _ _ _ rfl).2
    · rfl

/-- The text `parseInt` reads when it is a non-empty run of decimal digits. -/
theorem parseInt_decimal (ds : JsString) (hne : ds ≠ [])
    (hall : ∀ c ∈ ds, ∃ d, d < 10 ∧ c = Nat.digitChar d) :
    parseInt ds = some (digitsValue 10 ds : Int) := by
  have hprops : ∀ c ∈ ds, isWhiteSpace c = false ∧ isRadixDigit 10 c = true ∧
      c ≠ '-' ∧ c ≠ '+' ∧ c ≠ 'x' ∧ c ≠ 'X' := by
    intro c hc
    obtain ⟨d, hd, rfl⟩ := hall c hc
    have := digitChar_props d hd
    exact ⟨this.1, this.2.1, this.2.2.2.1, this.2.2.2.2.1, this.2.2.2.2.2.1, this.2.2.2.2.2.2⟩
  have hdrop : ds.dropWhile isWhiteSpace = ds := by
    apply dropWhile_eq_self
    intro c hc
    exact (hprops c (List.mem_of_mem_head? hc)).1
  have htake : ds.takeWhile (isRadixDigit 10) = ds := by
    rw [List.takeWhile_eq_self_iff]
    exact fun c hc => (hprops c hc).2.1
  have hsign : parseInt.isNegative ds = false ∧ parseInt.stripSign ds = ds := by
    cases ds with
    | nil => exact absurd rfl hne
    | cons c rest =>
      have hc := hprops c (List.mem_cons_self _ _)
      exact stripSign_eq_self c rest hc.2.2.1 hc.2.2.2.1
  have hradix := radix_eq_ten ds (fun c1 c2 t hs => by
    have hc := hprops c2 (by rw [hs]; simp)
    exact ⟨hc.2.2.2.2.1, hc.2.2.2.2.2⟩)
  unfold parseInt
  simp only [hdrop, hsign.1, hsign.2, hradix.1, hradix.2, htake]
  cases ds with
  | nil => exact absurd rfl hne
  | cons c rest => simp

/-- The digits of a decimal text, and the number they write. -/
theorem decimalText_digits (n : Nat) :
    decimalText n ≠ [] ∧ (∀ c ∈ decimalText n, ∃ d, d < 10 ∧ c = Nat.digitChar d) ∧
    digitsValue 10 (decimalText n) = n := by
  induction n using Nat.strong_induction_on with
  | _ n ih =>
    by_cases hn : n < 10
    · rw [decimalText_digit n hn]
      refine ⟨by simp, ?_, ?_⟩
      · intro c hc
        exact ⟨n, hn, by simpa using hc⟩
      · simp [digitsValue, (digitChar_props n hn).2.2.1]
    · have hlt : n / 10 < n := Nat.div_lt_self (by omega) (by decide)
      obtain ⟨_, hall, hval⟩ := ih (n / 10) hlt
      have hmod : n % 10 < 10 := Nat.mod_lt _ (by decide)
      rw [decimalText_step n (by omega)]
      refine ⟨by simp, ?_, ?_⟩
      · intro c hc
        rcases List.mem_append.mp hc with hc | hc
        · exact hall c hc
        · exact ⟨n % 10, hmod, by simpa using hc⟩
      · unfold digitsValue at hval ⊢
        rw [List.foldl_append, hval]
        simp only [List.foldl_cons, List.foldl_nil, (digitChar_props _ hmod).2.2.1, Option.getD_some]
        omega

/-- Reading back the decimal text of a number gives the number. -/
theorem parseInt_decimalText (n : Nat) : parseInt (decimalText n) = some (n : Int) := by
  obtain ⟨hne, hall, hval⟩ := decimalText_digits n
  rw [parseInt_decimal _ hne hall, hval]

/-- A decimal text has no white space to trim. -/
theorem trim_decimalText (n : Nat) : trim (decimalText n) = decimalText n := by
  obtain ⟨hne, hall, _⟩ := decimalText_digits n
  apply trim_eq_self
  · intro c hc
    obtain ⟨d, hd, rfl⟩ := hall c (List.mem_of_mem_head? hc)
    exact (digitChar_props d hd).1
  · intro c hc
    obtain ⟨d, hd, rfl⟩ := hall c (List.mem_of_mem_getLast? hc)
    exact (digitChar_props d hd).1

/-- For a typed count of at least one, `main` invokes `registerWallet` that
many times. -/
theorem main_attempts_positive (cfg : Config) (rt : Runtime) (seeds : Nat → WalletSeed)
    (N : Nat) (hN : 1 ≤ N) : (main cfg rt seeds (decimalText N)).attempts.length = N := by
  rw [main_attempts_length, trim_decimalText, walletCount, parseInt_decimalText]
  have : (N : Int) ≠ 0 := by omega
  simp [this]


/-- The scenario of two wallets of which the first gets HTTP 500 on
evm_connect: two invocations, the first returning `false` and the second
`true`, and exactly one saved record, that of the second wallet, registered
and holding its token. -/
theorem main_two_wallets_one_failure :
    (main sampleConfig serverErrorRuntime twoSeeds "2".toList).attempts.map
        (fun a => (a.created.address, a.returned)) =
      [("0xA1".toList, false), ("0xB2".toList, true)] ∧
    (main sampleConfig serverErrorRuntime twoSeeds "2".toList).saved.map
        (List.map (fun w => (w.address, w.registered))) =
      some [("0xB2".toList, true)] ∧
    (main sampleConfig serverErrorRuntime twoSeeds "2".toList).calls.map
        (fun c => c.request.url.endpoint) =
      [Endpoint.user_info, Endpoint.evm_connect,
        Endpoint.user_info, Endpoint.evm_connect, Endpoint.bind_invite] ∧
    (main sampleConfig serverErrorRuntime twoSeeds "2".toList).delays = [5000] := by
  decide

/-- Rounding in examples: `2^53 + 1` is a tie and goes to the even
neighbour `2^53`, `2^53 + 3` goes up to `2^53 + 4`, and the largest double
below 1 times 3 gives an index of 2. -/
theorem roundToSignificand_examples :
    roundToSignificand (2 ^ 53 + 1) = 2 ^ 53 ∧
    roundToSignificand (2 ^ 53 + 3) = 2 ^ 53 + 4 ∧
    randomIndex ⟨2 ^ 53 - 1, 53⟩ 3 = 2 := by
  decide

end Quack
